import Mathlib

/-!
Verification of the lattice collaborative-editing backend core.

Shallow embedding of the Go source:
- bytes are modelled as `Nat` values (real bytes are `< 256`; hypotheses
  state this where the arithmetic depends on it);
- byte strings (`[]byte`) are `List Nat`; update logs (`[][]byte`) are
  `List (List Nat)`;
- the SQLite store is modelled as per-room lists in insertion (sequence)
  order; each store operation is a pure state transformer;
- the hub's channel-serialized event loop is modelled by its three
  handlers as pure functions on a `HubState`; the attempted outbound
  sends of a handler are returned as an explicit list.
-/

namespace Lattice

/-! ## Snapshot blob framing (compaction.mergeYjsUpdates / SplitMergedUpdates) -/

/-- Big-endian uint32 length prefix written by `mergeYjsUpdates`:
`length := uint32(len(update))` followed by the four bytes
`byte(length>>24), byte(length>>16), byte(length>>8), byte(length)`. -/
def encodeLen (n : Nat) : List Nat :=
  let l := n % 2 ^ 32
  [l / 2 ^ 24 % 256, l / 2 ^ 16 % 256, l / 2 ^ 8 % 256, l % 256]

/-- Big-endian uint32 read performed by `SplitMergedUpdates`:
`uint32(b0)<<24 | uint32(b1)<<16 | uint32(b2)<<8 | uint32(b3)` (for real
bytes `< 256` the bit-or of disjoint ranges is the sum). -/
def decodeLen (b0 b1 b2 b3 : Nat) : Nat :=
  b0 * 2 ^ 24 + b1 * 2 ^ 16 + b2 * 2 ^ 8 + b3

/-- Go `mergeYjsUpdates`: for each update in log order, append the
uint32 big-endian length prefix and then the update bytes. -/
def mergeYjsUpdates : List (List Nat) → List Nat
  | [] => []
  | u :: us => encodeLen u.length ++ u ++ mergeYjsUpdates us

/-- Go `SplitMergedUpdates`: repeatedly read a 4-byte length prefix and
that many payload bytes; stop silently when fewer than 4 bytes remain or
the announced length extends past the end of the input. -/
def SplitMergedUpdates (merged : List Nat) : List (List Nat) :=
  match merged with
  | b0 :: b1 :: b2 :: b3 :: rest =>
    let length := decodeLen b0 b1 b2 b3
    if length ≤ rest.length then
      rest.take length :: SplitMergedUpdates (rest.drop length)
    else []
  | _ => []
termination_by merged.length
decreasing_by simp; omega

theorem decodeLen_encodeLen (n : Nat) (h : n < 2 ^ 32) :
    decodeLen (n % 2 ^ 32 / 2 ^ 24 % 256) (n % 2 ^ 32 / 2 ^ 16 % 256)
      (n % 2 ^ 32 / 2 ^ 8 % 256) (n % 2 ^ 32 % 256) = n := by
  simp only [decodeLen]
  omega

theorem encodeLen_decodeLen (b0 b1 b2 b3 : Nat)
    (h0 : b0 < 256) (h1 : b1 < 256) (h2 : b2 < 256) (h3 : b3 < 256) :
    encodeLen (decodeLen b0 b1 b2 b3) = [b0, b1, b2, b3] := by
  simp only [encodeLen, decodeLen, List.cons.injEq, and_true]
  refine ⟨?_, ?_, ?_, ?_⟩ <;> omega

theorem decodeLen_lt (b0 b1 b2 b3 : Nat)
    (h0 : b0 < 256) (h1 : b1 < 256) (h2 : b2 < 256) (h3 : b3 < 256) :
    decodeLen b0 b1 b2 b3 < 2 ^ 32 := by
  simp only [decodeLen]; omega

/-- Shared roundtrip lemma: splitting the merged blob recovers the update
list when every update is shorter than 2^32 bytes. -/
theorem split_merge_roundtrip_aux (us : List (List Nat))
    (h : ∀ u ∈ us, u.length < 2 ^ 32) :
    SplitMergedUpdates (mergeYjsUpdates us) = us := by
  induction us with
  | nil => simp [mergeYjsUpdates, SplitMergedUpdates]
  | cons u us ih =>
    have hu : u.length < 2 ^ 32 := h u (List.mem_cons_self u us)
    have hdec : decodeLen (u.length % 2 ^ 32 / 2 ^ 24 % 256)
        (u.length % 2 ^ 32 / 2 ^ 16 % 256) (u.length % 2 ^ 32 / 2 ^ 8 % 256)
        (u.length % 2 ^ 32 % 256) = u.length := decodeLen_encodeLen _ hu
    simp only [mergeYjsUpdates, encodeLen, List.cons_append, List.nil_append,
      SplitMergedUpdates, hdec]
    rw [if_pos (by simp)]
    rw [List.take_left, List.drop_left, ih fun v hv => h v (List.mem_cons_of_mem u hv)]

/-- C2 — For every finite list of byte strings us (each shorter than 2^32
bytes), `SplitMergedUpdates (mergeYjsUpdates us)` returns exactly `us`:
the same number of frames, in the same order, with identical bytes. -/
theorem split_merge_roundtrip (us : List (List Nat))
    (h : ∀ u ∈ us, u.length < 2 ^ 32) :
    SplitMergedUpdates (mergeYjsUpdates us) = us :=
  split_merge_roundtrip_aux us h

/-- Witness for `split_merge_roundtrip` at a concrete update list. -/
theorem split_merge_roundtrip_witness :
    SplitMergedUpdates (mergeYjsUpdates [[7, 8], [], [255, 0, 1]]) =
      [[7, 8], [], [255, 0, 1]] :=
  split_merge_roundtrip [[7, 8], [], [255, 0, 1]] (by decide)

/-- A byte string on which `SplitMergedUpdates` must stop: fewer than
4 bytes remain, or the announced length extends past the end. -/
def parseStuck (l : List Nat) : Prop :=
  match l with
  | b0 :: b1 :: b2 :: b3 :: rest => rest.length < decodeLen b0 b1 b2 b3
  | _ => True

/-- C8 — `SplitMergedUpdates` is total and parses the longest well-formed
prefix of length-prefixed frames: the input decomposes into the re-encoding
of the returned frames followed by discarded trailing bytes on which
parsing is stuck (fewer than 4 bytes remain, or the length prefix extends
past the end of the input). -/
theorem splitMergedUpdates_longest_prefix (merged : List Nat)
    (hb : ∀ b ∈ merged, b < 256) :
    ∃ trailing,
      merged = mergeYjsUpdates (SplitMergedUpdates merged) ++ trailing ∧
      parseStuck trailing := by
  suffices H : ∀ n (l : List Nat), l.length ≤ n → (∀ b ∈ l, b < 256) →
      ∃ trailing, l = mergeYjsUpdates (SplitMergedUpdates l) ++ trailing ∧
        parseStuck trailing from
    H merged.length merged le_rfl hb
  intro n
  induction n with
  | zero =>
    intro l hl _
    have : l = [] := List.length_eq_zero.mp (Nat.le_zero.mp hl)
    exact ⟨[], by simp [this, SplitMergedUpdates, mergeYjsUpdates, parseStuck]⟩
  | succ n ih =>
    intro l hl hbl
    match l with
    | [] => exact ⟨[], by simp [SplitMergedUpdates, mergeYjsUpdates, parseStuck]⟩
    | [b0] => exact ⟨[b0], by simp [SplitMergedUpdates, mergeYjsUpdates, parseStuck]⟩
    | [b0, b1] => exact ⟨[b0, b1], by simp [SplitMergedUpdates, mergeYjsUpdates, parseStuck]⟩
    | [b0, b1, b2] =>
      exact ⟨[b0, b1, b2], by simp [SplitMergedUpdates, mergeYjsUpdates, parseStuck]⟩
    | b0 :: b1 :: b2 :: b3 :: rest =>
      have h0 : b0 < 256 := hbl b0 (by simp)
      have h1 : b1 < 256 := hbl b1 (by simp)
      have h2 : b2 < 256 := hbl b2 (by simp)
      have h3 : b3 < 256 := hbl b3 (by simp)
      by_cases hlen : decodeLen b0 b1 b2 b3 ≤ rest.length
      · have hrest : ∀ b ∈ rest.drop (decodeLen b0 b1 b2 b3), b < 256 := fun b hbm =>
          hbl b (List.mem_cons_of_mem _ (List.mem_cons_of_mem _ (List.mem_cons_of_mem _
            (List.mem_cons_of_mem _ (List.mem_of_mem_drop hbm)))))
        have hdroplen : (rest.drop (decodeLen b0 b1 b2 b3)).length ≤ n := by
          simp only [List.length_cons, List.length_drop] at hl ⊢; omega
        obtain ⟨trailing, heq, hstuck⟩ :=
          ih (rest.drop (decodeLen b0 b1 b2 b3)) hdroplen hrest
        refine ⟨trailing, ?_, hstuck⟩
        have hsplit : SplitMergedUpdates (b0 :: b1 :: b2 :: b3 :: rest) =
            rest.take (decodeLen b0 b1 b2 b3) ::
              SplitMergedUpdates (rest.drop (decodeLen b0 b1 b2 b3)) := by
          rw [SplitMergedUpdates]
          simp only [hlen, if_pos]
        rw [hsplit, mergeYjsUpdates, List.length_take, Nat.min_eq_left hlen,
          encodeLen_decodeLen b0 b1 b2 b3 h0 h1 h2 h3]
        simp only [List.append_assoc, ← heq, List.take_append_drop, encodeLen,
          List.cons_append, List.nil_append]
      · refine ⟨b0 :: b1 :: b2 :: b3 :: rest, ?_, ?_⟩
        · rw [SplitMergedUpdates, if_neg hlen]
          simp [mergeYjsUpdates]
        · simp only [parseStuck]; omega

/-- Witness for `splitMergedUpdates_longest_prefix` at a concrete blob:
one well-formed frame `[9]` followed by a truncated tail. -/
theorem splitMergedUpdates_longest_prefix_witness :
    ∃ trailing,
      [0, 0, 0, 1, 9, 0, 0, 0, 200, 5] =
        mergeYjsUpdates (SplitMergedUpdates [0, 0, 0, 1, 9, 0, 0, 0, 200, 5]) ++
          trailing ∧
      parseStuck trailing :=
  splitMergedUpdates_longest_prefix [0, 0, 0, 1, 9, 0, 0, 0, 200, 5] (by decide)

/-! ## Store (db.Database) — per-room update log and snapshot slot -/

/-- Persisted state relevant to the update log: per room, the individually
stored updates in ascending sequence (`GetAllUpdates` order) and the
optional snapshot row `(snapshot_data, update_count)`. -/
structure Db where
  updates : String → List (List Nat)
  snapshots : String → Option (List Nat × Nat)

/-- `Database.SaveUpdate`: insert the update with the next sequence for
the room (room creation and timestamp touch not modelled — they do not
affect the update log). -/
def saveUpdate (db : Db) (roomID : String) (update : List Nat) : Db :=
  { db with updates := fun r =>
      if r = roomID then db.updates r ++ [update] else db.updates r }

/-- `Database.SaveSnapshot`: upsert the one snapshot row of the room. -/
def saveSnapshot (db : Db) (roomID : String) (snapshot : List Nat)
    (updateCount : Nat) : Db :=
  { db with snapshots := fun r =>
      if r = roomID then some (snapshot, updateCount) else db.snapshots r }

/-- `Database.DeleteUpdatesBeforeSnapshot`: delete the room's updates
except the `keepCount` most recent by sequence (the last `keepCount` of
the ascending list). -/
def deleteUpdatesBeforeSnapshot (db : Db) (roomID : String) (keepCount : Nat) : Db :=
  { db with updates := fun r =>
      if r = roomID then (db.updates r).drop ((db.updates r).length - keepCount)
      else db.updates r }

/-! ## Compactor (compaction.Service.compactRoom) -/

/-- `Service.compactRoom`: read all updates; if fewer than the threshold,
do nothing; otherwise merge all of them into the snapshot blob, upsert the
snapshot row with the merged count, and delete all but the `keep` most
recent updates. -/
def compactRoom (threshold keep : Nat) (db : Db) (roomID : String) : Db :=
  let updates := db.updates roomID
  if updates.length < threshold then db
  else
    let mergedUpdate := mergeYjsUpdates updates
    deleteUpdatesBeforeSnapshot
      (saveSnapshot db roomID mergedUpdate updates.length) roomID keep

/-- A store holding 100 one-byte updates in room "r", no snapshot. -/
def exDb100 : Db :=
  { updates := fun r => if r = "r" then List.replicate 100 [5] else []
    snapshots := fun _ => none }

/-- C1 counterexample — with the default thresholds (100, 10) and n = 100
persisted updates, splitting the compacted room's snapshot blob yields 100
frames, not n − KeepRecent = 90: the compactor merges all n updates into
the snapshot, including the tail it keeps individually stored. -/
theorem compactRoom_counterexample :
    (SplitMergedUpdates
        (((compactRoom 100 10 exDb100 "r").snapshots "r").getD ([], 0)).1).length
      ≠ 100 - 10 ∧
    (SplitMergedUpdates
        (((compactRoom 100 10 exDb100 "r").snapshots "r").getD ([], 0)).1).length
      = 100 := by
  have hblob : (((compactRoom 100 10 exDb100 "r").snapshots "r").getD ([], 0)).1 =
      mergeYjsUpdates (List.replicate 100 [5]) := by
    simp [compactRoom, exDb100, deleteUpdatesBeforeSnapshot, saveSnapshot]
  have hsplit : SplitMergedUpdates (mergeYjsUpdates (List.replicate 100 [5])) =
      List.replicate 100 [5] :=
    split_merge_roundtrip_aux _ (by
      intro u hu
      rw [List.eq_of_mem_replicate hu]
      decide)
  rw [hblob, hsplit]
  simp

/-- C1 amended — for every room with n ≥ UpdateThreshold (default 100)
persisted updates (each shorter than 2^32 bytes), after one compaction
pass the room's stored update count equals KeepRecent (default 10), a
snapshot is present carrying the merged count n, and splitting the
snapshot blob yields exactly n frames equal to all n appended updates, in
their original order and bytes (the kept tail is duplicated inside the
snapshot). -/
theorem compactRoom_spec (db : Db) (roomID : String)
    (hn : 100 ≤ (db.updates roomID).length)
    (hlen : ∀ u ∈ db.updates roomID, u.length < 2 ^ 32) :
    ((compactRoom 100 10 db roomID).updates roomID).length = 10 ∧
    (compactRoom 100 10 db roomID).snapshots roomID =
      some (mergeYjsUpdates (db.updates roomID), (db.updates roomID).length) ∧
    SplitMergedUpdates
        (((compactRoom 100 10 db roomID).snapshots roomID).getD ([], 0)).1 =
      db.updates roomID := by
  have hnot : ¬ (db.updates roomID).length < 100 := by omega
  refine ⟨?_, ?_, ?_⟩
  · simp [compactRoom, hnot, deleteUpdatesBeforeSnapshot, saveSnapshot]
    omega
  · simp [compactRoom, hnot, deleteUpdatesBeforeSnapshot, saveSnapshot]
  · simp [compactRoom, hnot, deleteUpdatesBeforeSnapshot, saveSnapshot]
    exact split_merge_roundtrip_aux _ hlen

/-- Witness for `compactRoom_spec` at the concrete 100-update store. -/
theorem compactRoom_spec_witness :
    ((compactRoom 100 10 exDb100 "r").updates "r").length = 10 ∧
    (compactRoom 100 10 exDb100 "r").snapshots "r" =
      some (mergeYjsUpdates (exDb100.updates "r"), (exDb100.updates "r").length) ∧
    SplitMergedUpdates
        (((compactRoom 100 10 exDb100 "r").snapshots "r").getD ([], 0)).1 =
      exDb100.updates "r" :=
  compactRoom_spec exDb100 "r" (by decide) (by decide)

/-! ## Line diff (api.computeDiff / lcsMatrix / backtrackDiff) -/

/-- The `Type` field of Go `DiffLine`: "added", "removed" or "unchanged". -/
inductive DiffType where
  | added
  | removed
  | unchanged
deriving DecidableEq, Repr

/-- Go `DiffLine`. `oldLine` is 0 (omitted) on added lines, `newLine` is
0 (omitted) on removed lines. -/
structure DiffLine where
  type : DiffType
  content : String
  oldLine : Nat
  newLine : Nat
deriving DecidableEq, Repr

/-- Go `lcsMatrix`: `dp[i][j]` is 0 when `i = 0` or `j = 0`, `dp[i-1][j-1] + 1`
when `a[i-1] == b[j-1]`, and `max dp[i-1][j] dp[i][j-1]` otherwise.
Modelled as the function `(i, j) ↦ dp[i][j]`. -/
def lcsMatrix (a b : List String) : Nat → Nat → Nat
  | 0, _ => 0
  | _ + 1, 0 => 0
  | i + 1, j + 1 =>
    if a.getD i "" = b.getD j "" then lcsMatrix a b i j + 1
    else max (lcsMatrix a b i (j + 1)) (lcsMatrix a b (i + 1) j)

/-- The backtracking loop of Go `backtrackDiff`, producing the stack in
push order (last diff line first); `i, j` are the current indices and
`oldN, newN` the current 1-based line counters. -/
def backtrackStack (a b : List String) (lcs : Nat → Nat → Nat)
    (i j oldN newN : Nat) : List DiffLine :=
  if h0 : i = 0 ∧ j = 0 then []
  else if h1 : 0 < i ∧ 0 < j ∧ a.getD (i - 1) "" = b.getD (j - 1) "" then
    ⟨.unchanged, a.getD (i - 1) "", oldN, newN⟩ ::
      backtrackStack a b lcs (i - 1) (j - 1) (oldN - 1) (newN - 1)
  else if h2 : 0 < j ∧ (i = 0 ∨ lcs (i - 1) j ≤ lcs i (j - 1)) then
    ⟨.added, b.getD (j - 1) "", 0, newN⟩ ::
      backtrackStack a b lcs i (j - 1) oldN (newN - 1)
  else
    ⟨.removed, a.getD (i - 1) "", oldN, 0⟩ ::
      backtrackStack a b lcs (i - 1) j (oldN - 1) newN
termination_by i + j
decreasing_by
  · obtain ⟨hi, hj, -⟩ := h1; omega
  · obtain ⟨hj, -⟩ := h2; omega
  · omega

/-- Go `backtrackDiff`: backtrack from `(len a, len b)` and reverse the
stack into first-line-first order. -/
def backtrackDiff (a b : List String) (lcs : Nat → Nat → Nat) : List DiffLine :=
  (backtrackStack a b lcs a.length b.length a.length b.length).reverse

/-- Go `computeDiff`: split both contents on newline, build the LCS table,
backtrack. -/
def computeDiff (oldContent newContent : String) : List DiffLine :=
  let oldLines := oldContent.splitOn "\n"
  let newLines := newContent.splitOn "\n"
  backtrackDiff oldLines newLines (lcsMatrix oldLines newLines)

/-- The lines of the old file described by a diff: contents of removed and
unchanged entries. -/
def keepOld (d : DiffLine) : Option String :=
  if d.type = .added then none else some d.content

/-- The lines of the new file described by a diff: contents of added and
unchanged entries. -/
def keepNew (d : DiffLine) : Option String :=
  if d.type = .removed then none else some d.content

theorem take_snoc_getD {α : Type} (l : List α) (k : Nat) (hk : k < l.length) (d : α) :
    l.take (k + 1) = l.take k ++ [l.getD k d] := by
  rw [List.take_succ, List.getD_eq_getElem l d hk, List.getElem?_eq_getElem hk]
  rfl

theorem backtrackStack_filterMap (a b : List String) (lcs : Nat → Nat → Nat)
    (i j oldN newN : Nat) (hi : i ≤ a.length) (hj : j ≤ b.length) :
    (backtrackStack a b lcs i j oldN newN).filterMap keepOld = (a.take i).reverse ∧
    (backtrackStack a b lcs i j oldN newN).filterMap keepNew = (b.take j).reverse := by
  suffices H : ∀ n i j oldN newN, i + j ≤ n → i ≤ a.length → j ≤ b.length →
      (backtrackStack a b lcs i j oldN newN).filterMap keepOld = (a.take i).reverse ∧
      (backtrackStack a b lcs i j oldN newN).filterMap keepNew = (b.take j).reverse from
    H (i + j) i j oldN newN le_rfl hi hj
  intro n
  induction n with
  | zero =>
    intro i j oldN newN hn _ _
    have hi0 : i = 0 := by omega
    have hj0 : j = 0 := by omega
    subst hi0; subst hj0
    rw [backtrackStack]
    simp
  | succ n ih =>
    intro i j oldN newN hn hi hj
    rw [backtrackStack]
    by_cases h0 : i = 0 ∧ j = 0
    · obtain ⟨hi0, hj0⟩ := h0; subst hi0; subst hj0; simp
    · rw [dif_neg h0]
      by_cases h1 : 0 < i ∧ 0 < j ∧ a.getD (i - 1) "" = b.getD (j - 1) ""
      · rw [dif_pos h1]
        obtain ⟨hipos, hjpos, heqline⟩ := h1
        obtain ⟨ihOld, ihNew⟩ := ih (i - 1) (j - 1) (oldN - 1) (newN - 1)
          (by omega) (by omega) (by omega)
        have htakeA : a.take i = a.take (i - 1) ++ [a.getD (i - 1) ""] := by
          have h := take_snoc_getD a (i - 1) (by omega) ""
          rwa [show i - 1 + 1 = i by omega] at h
        have htakeB : b.take j = b.take (j - 1) ++ [b.getD (j - 1) ""] := by
          have h := take_snoc_getD b (j - 1) (by omega) ""
          rwa [show j - 1 + 1 = j by omega] at h
        constructor
        · simp only [List.filterMap_cons, keepOld, ihOld]
          rw [htakeA]
          simp
        · simp only [List.filterMap_cons, keepNew, ihNew]
          rw [htakeB, heqline]
          simp
      · rw [dif_neg h1]
        by_cases h2 : 0 < j ∧ (i = 0 ∨ lcs (i - 1) j ≤ lcs i (j - 1))
        · rw [dif_pos h2]
          obtain ⟨hjpos, -⟩ := h2
          obtain ⟨ihOld, ihNew⟩ := ih i (j - 1) oldN (newN - 1)
            (by omega) hi (by omega)
          have htakeB : b.take j = b.take (j - 1) ++ [b.getD (j - 1) ""] := by
            have h := take_snoc_getD b (j - 1) (by omega) ""
            rwa [show j - 1 + 1 = j by omega] at h
          constructor
          · simp only [List.filterMap_cons, keepOld, ihOld]
            simp
          · simp only [List.filterMap_cons, keepNew, ihNew]
            rw [htakeB]
            simp
        · rw [dif_neg h2]
          have hipos : 0 < i := by
            rcases Nat.eq_zero_or_pos i with hz | hp
            · exfalso
              rcases Nat.eq_zero_or_pos j with hjz | hjp
              · exact h0 ⟨hz, hjz⟩
              · exact h2 ⟨hjp, Or.inl hz⟩
            · exact hp
          obtain ⟨ihOld, ihNew⟩ := ih (i - 1) j (oldN - 1) newN
            (by omega) (by omega) hj
          have htakeA : a.take i = a.take (i - 1) ++ [a.getD (i - 1) ""] := by
            have h := take_snoc_getD a (i - 1) (by omega) ""
            rwa [show i - 1 + 1 = i by omega] at h
          constructor
          · simp only [List.filterMap_cons, keepOld, ihOld]
            rw [htakeA]
            simp
          · simp only [List.filterMap_cons, keepNew, ihNew]
            simp

/-- C3 — For any two strings a and b, `computeDiff a b` is a correct
patch: the removed and unchanged entries, in order, are exactly the lines
of a split on newline, and the added and unchanged entries, in order, are
exactly the lines of b split on newline — so applying the additions and
removals of the sequence, in order, to `a.split "\n"` yields
`b.split "\n"`. -/
theorem computeDiff_correct (a b : String) :
    (computeDiff a b).filterMap keepOld = a.splitOn "\n" ∧
    (computeDiff a b).filterMap keepNew = b.splitOn "\n" := by
  obtain ⟨hOld, hNew⟩ := backtrackStack_filterMap (a.splitOn "\n") (b.splitOn "\n")
    (lcsMatrix (a.splitOn "\n") (b.splitOn "\n"))
    (a.splitOn "\n").length (b.splitOn "\n").length
    (a.splitOn "\n").length (b.splitOn "\n").length le_rfl le_rfl
  constructor
  · simp only [computeDiff, backtrackDiff, List.filterMap_reverse, hOld]
    simp
  · simp only [computeDiff, backtrackDiff, List.filterMap_reverse, hNew]
    simp

/-! ## Frame validation (ws.validateYjsMessage) -/

/-- Yjs protocol constant `MessageSync = 0`. -/
def MessageSync : Nat := 0

/-- Yjs protocol constant `MessageAwareness = 1`. -/
def MessageAwareness : Nat := 1

/-- Go `validateYjsMessage`: reject empty frames; for a sync frame (first
byte 0) require length ≥ 2 and second byte ≤ 2; for an awareness frame
(first byte 1) require length ≥ 2; reject any other first byte. Returns
`Except.ok ()` exactly when the Go function returns nil. -/
def validateYjsMessage (data : List Nat) : Except String Unit :=
  match data with
  | [] => .error "empty message"
  | messageType :: rest =>
    if messageType = MessageSync then
      match rest with
      | [] => .error "sync message too short"
      | syncType :: _ =>
        if syncType > 2 then .error "invalid sync type" else .ok ()
    else if messageType = MessageAwareness then
      match rest with
      | [] => .error "awareness message too short"
      | _ => .ok ()
    else .error "unknown message type"

/-- C7 — `validateYjsMessage` accepts a frame if and only if it is at
least 2 bytes long, its first byte is 0 or 1, and when the first byte is 0
its second byte is at most 2; every other frame is rejected with an
error. -/
theorem validateYjsMessage_iff (data : List Nat) :
    validateYjsMessage data = .ok () ↔
      ∃ t s rest, data = t :: s :: rest ∧ (t = 0 ∧ s ≤ 2 ∨ t = 1) := by
  match data with
  | [] => simp [validateYjsMessage]
  | [t] =>
    simp only [validateYjsMessage, MessageSync, MessageAwareness]
    constructor
    · intro h
      by_cases ht0 : t = 0
      · simp [ht0] at h
      · by_cases ht1 : t = 1
        · simp [ht0, ht1] at h
        · simp [ht0, ht1] at h
    · rintro ⟨t', s', rest', heq, -⟩
      exact absurd heq (by simp)
  | t :: s :: rest =>
    simp only [validateYjsMessage, MessageSync, MessageAwareness]
    by_cases ht0 : t = 0
    · subst ht0
      by_cases hs : s > 2
      · simp only [if_pos rfl, if_pos hs]
        constructor
        · intro h; exact absurd h (by simp)
        · rintro ⟨t', s', rest', heq, hcase⟩
          injection heq with h1 heq2
          injection heq2 with h2 heq3
          subst h1; subst h2
          rcases hcase with ⟨-, hle⟩ | hone
          · omega
          · omega
      · simp only [if_pos rfl, if_neg hs]
        constructor
        · intro _; exact ⟨0, s, rest, rfl, Or.inl ⟨rfl, by omega⟩⟩
        · intro _; rfl
    · by_cases ht1 : t = 1
      · subst ht1
        simp only [if_neg ht0, if_pos rfl]
        constructor
        · intro _; exact ⟨1, s, rest, rfl, Or.inr rfl⟩
        · intro _; rfl
      · simp only [if_neg ht0, if_neg ht1]
        constructor
        · intro h; exact absurd h (by simp)
        · rintro ⟨t', s', rest', heq, hcase⟩
          injection heq with h1 heq2
          injection heq2 with h2 heq3
          subst h1; subst h2
          rcases hcase with ⟨h0, -⟩ | h1
          · exact absurd h0 ht0
          · exact absurd h1 ht1

/-! ## Rate limiter (ratelimit.Limiter) -/

/-- Go `ratelimit.Limiter` (rate and tokens are `float64`; on the integer
trajectories this file reasons about, `float64` arithmetic is exact, so
they are modelled as rationals). The `lastUpdate` clock is externalized:
each call receives the elapsed seconds since the previous call. -/
structure Limiter where
  rate : ℚ
  burst : Nat
  tokens : ℚ

/-- Go `NewLimiter`: the bucket starts full at `burst` tokens. -/
def NewLimiter (rate : ℚ) (burst : Nat) : Limiter :=
  { rate := rate, burst := burst, tokens := (burst : ℚ) }

/-- Go `Limiter.Allow` with explicit elapsed time: refill by
`elapsed * rate`, cap at `burst`, succeed and deduct 1 exactly when at
least one token is available. -/
def allow (l : Limiter) (elapsed : ℚ) : Bool × Limiter :=
  let tokens := l.tokens + elapsed * l.rate
  let tokens := if tokens > (l.burst : ℚ) then (l.burst : ℚ) else tokens
  if tokens ≥ 1 then (true, { l with tokens := tokens - 1 })
  else (false, { l with tokens := tokens })

/-- Call `allow` n times back-to-back with no time elapsing, collecting
the results in order. -/
def allowRepeat (l : Limiter) : Nat → List Bool × Limiter
  | 0 => ([], l)
  | n + 1 =>
    let p := allow l 0
    let q := allowRepeat p.2 n
    (p.1 :: q.1, q.2)

theorem allow_zero_elapsed_int (l : Limiter) (k : Nat) (hk : l.tokens = (k : ℚ))
    (hburst : k ≤ l.burst) :
    allow l 0 = (if 1 ≤ k then (true, { l with tokens := ((k - 1 : Nat) : ℚ) })
      else (false, l)) := by
  have hcap : ¬ ((k : ℚ) + 0 * l.rate > (l.burst : ℚ)) := by
    simp only [zero_mul, add_zero]
    exact_mod_cast not_lt.mpr hburst
  by_cases h1 : 1 ≤ k
  · rw [if_pos h1]
    simp only [allow, hk]
    rw [if_neg hcap]
    rw [if_pos (by simp only [zero_mul, add_zero]; exact_mod_cast h1)]
    have hsub : (k : ℚ) + 0 * l.rate - 1 = ((k - 1 : Nat) : ℚ) := by
      rw [Nat.cast_sub h1]
      push_cast
      ring
    rw [hsub]
  · rw [if_neg h1]
    have hk0 : k = 0 := by omega
    subst hk0
    simp only [allow, hk]
    rw [if_neg hcap]
    rw [if_neg (by simp only [zero_mul, add_zero]; norm_num)]
    cases l
    simp_all

theorem allowRepeat_drain (rate : ℚ) (burst : Nat) :
    ∀ (n : Nat) (l : Limiter) (k : Nat), l.rate = rate → l.burst = burst →
      l.tokens = (k : ℚ) → k ≤ burst →
      (allowRepeat l n).1 =
        List.replicate (min n k) true ++ List.replicate (n - k) false := by
  intro n
  induction n with
  | zero => intro l k _ _ _ _; simp [allowRepeat]
  | succ n ih =>
    intro l k hrate hburst htok hkb
    rw [allowRepeat]
    by_cases h1 : 1 ≤ k
    · have hstep := allow_zero_elapsed_int l k htok (hburst ▸ hkb)
      rw [if_pos h1] at hstep
      rw [hstep]
      have := ih { l with tokens := ((k - 1 : Nat) : ℚ) } (k - 1) hrate hburst rfl
        (by omega)
      simp only [this]
      rw [show min (n + 1) k = min n (k - 1) + 1 by omega,
        show n + 1 - k = n - (k - 1) by omega]
      simp [List.replicate_succ]
    · have hk0 : k = 0 := by omega
      subst hk0
      have hstep := allow_zero_elapsed_int l 0 htok (by omega)
      rw [if_neg (by omega)] at hstep
      rw [hstep]
      have := ih l 0 hrate hburst htok (by omega)
      simp only [this]
      simp [List.replicate_succ]

/-- C9 — For a freshly created Limiter with rate 100 and burst 200, with
no time elapsing between calls, each of the first 200 `Allow` calls
returns true and the 201st returns false. Moreover, in general: tokens
start at `burst`, refill is `elapsed * rate` capped at `burst`, a call
succeeds exactly when at least one token is available after the refill,
and a successful call deducts exactly 1. -/
theorem limiter_burst_200 :
    (NewLimiter 100 200).tokens = ((200 : Nat) : ℚ) ∧
    (∀ (l : Limiter) (elapsed : ℚ),
      ((allow l elapsed).1 = true ↔
        1 ≤ min (l.tokens + elapsed * l.rate) ((l.burst : ℚ))) ∧
      (allow l elapsed).2.tokens =
        (if 1 ≤ min (l.tokens + elapsed * l.rate) ((l.burst : ℚ))
         then min (l.tokens + elapsed * l.rate) ((l.burst : ℚ)) - 1
         else min (l.tokens + elapsed * l.rate) ((l.burst : ℚ)))) ∧
    (allowRepeat (NewLimiter 100 200) 201).1 =
      List.replicate 200 true ++ [false] := by
  refine ⟨rfl, ?_, ?_⟩
  · intro l elapsed
    have hmin : (if l.tokens + elapsed * l.rate > (l.burst : ℚ)
        then (l.burst : ℚ) else l.tokens + elapsed * l.rate) =
        min (l.tokens + elapsed * l.rate) ((l.burst : ℚ)) := by
      rcases le_or_lt (l.tokens + elapsed * l.rate) ((l.burst : ℚ)) with hle | hgt
      · rw [if_neg (not_lt.mpr hle), min_eq_left hle]
      · rw [if_pos hgt, min_eq_right (le_of_lt hgt)]
    constructor
    · rw [allow]
      simp only [hmin]
      by_cases hge : 1 ≤ min (l.tokens + elapsed * l.rate) ((l.burst : ℚ))
      · rw [if_pos hge]
        simp [hge]
      · rw [if_neg hge]
        simp [hge]
    · rw [allow]
      simp only [hmin]
      by_cases hge : 1 ≤ min (l.tokens + elapsed * l.rate) ((l.burst : ℚ))
      · rw [if_pos hge, if_pos hge]
      · rw [if_neg hge, if_neg hge]
  · have h := allowRepeat_drain 100 200 201 (NewLimiter 100 200) 200 rfl rfl
      (by norm_num [NewLimiter]) le_rfl
    rw [h]
    norm_num

/-! ## Hub (ws.Hub) — room membership, room state cache, broadcast -/

/-- Go `ws.RoomState`: the in-memory ordered update list and the awareness
map (client id → awareness bytes, modelled as an association list). -/
structure RoomState where
  updates : List (List Nat)
  awarenessStates : List (Nat × List Nat)
deriving DecidableEq

/-- Go `NewRoomState`: both collections start empty. -/
def NewRoomState : RoomState :=
  { updates := [], awarenessStates := [] }

/-- Go `RoomState.GetAllAwareness`: the stored awareness byte strings. -/
def GetAllAwareness (r : RoomState) : List (List Nat) :=
  r.awarenessStates.map Prod.snd

/-- Go `ws.Hub` state: per-room member sets (client ids; an absent room is
the empty list), the room-state cache (`none` = room not yet loaded), and
the backing database. -/
structure HubState where
  rooms : String → List Nat
  roomStates : String → Option RoomState
  db : Db

/-- Go `NewHub`: no members, no cached room states. -/
def NewHub (db : Db) : HubState :=
  { rooms := fun _ => [], roomStates := fun _ => none, db := db }

/-- Go `Hub.getRoomState`: return the cached state if present; otherwise
build a fresh `RoomState`, fill it with the split snapshot blob followed
by the individually stored updates, cache it, and return it (also
returning the updated hub state). -/
def getRoomState (h : HubState) (roomID : String) : HubState × RoomState :=
  match h.roomStates roomID with
  | some state => (h, state)
  | none =>
    let snapshotUpdates :=
      match h.db.snapshots roomID with
      | some (snapshot, _) =>
        if 0 < snapshot.length then SplitMergedUpdates snapshot else []
      | none => []
    let allUpdates := snapshotUpdates ++ h.db.updates roomID
    let roomState :=
      if 0 < allUpdates.length then { NewRoomState with updates := allUpdates }
      else NewRoomState
    ({ h with roomStates := fun r =>
        if r = roomID then some roomState else h.roomStates r },
     roomState)

/-- Go `ws.Message`. The sender is its client id. -/
structure Message where
  roomID : String
  data : List Nat
  sender : Nat

/-- Go `Hub.handleBroadcast`: if the frame is non-empty and its first byte
is `MessageSync`, append it to the room's in-memory update list and
persist it with `SaveUpdate`; an awareness frame is not stored. Then
attempt a send to every current member of the room except the sender; the
returned list is the clients to whom a send is attempted. -/
def handleBroadcast (h : HubState) (m : Message) : HubState × List Nat :=
  let h1 :=
    match m.data with
    | [] => h
    | messageType :: _ =>
      let p := getRoomState h m.roomID
      if messageType = MessageSync then
        let st := p.2
        { p.1 with
          roomStates := fun r =>
            if r = m.roomID then some { st with updates := st.updates ++ [m.data] }
            else p.1.roomStates r,
          db := saveUpdate p.1.db m.roomID m.data }
      else p.1
  (h1, (h1.rooms m.roomID).filter (fun c => c ≠ m.sender))

/-- Go `Hub.handleRegister`: add the client to the room's member set, load
the room state, and attempt catch-up sends of all retained updates
followed by all retained awareness states; the returned list is the frames
whose send is attempted, in order. -/
def registerMembers (h : HubState) (c : Nat) (roomID : String) : String → List Nat :=
  fun r =>
    if r = roomID then
      (if c ∈ h.rooms roomID then h.rooms roomID else h.rooms roomID ++ [c])
    else h.rooms r

def handleRegister (h : HubState) (c : Nat) (roomID : String) :
    HubState × List (List Nat) :=
  let h1 := { h with rooms := registerMembers h c roomID }
  let p := getRoomState h1 roomID
  (p.1, p.2.updates ++ GetAllAwareness p.2)

/-- Go `Hub.handleUnregister`: remove the client from the room's member
set (closing of the outbound channel is not modelled). -/
def handleUnregister (h : HubState) (c : Nat) (roomID : String) : HubState :=
  { h with rooms := fun r =>
      if r = roomID then (h.rooms roomID).filter (fun x => x ≠ c) else h.rooms r }

/-- C6 — When the hub first loads a room's state (`getRoomState` on a room
not yet cached), the resulting in-memory update list equals the stored
snapshot blob split into individual frames by the length-prefix format,
concatenated with the individually stored updates from the database, in
that order; the loaded state is cached. -/
theorem getRoomState_load (h : HubState) (roomID : String)
    (hnc : h.roomStates roomID = none) :
    ((getRoomState h roomID).2).updates =
      (match h.db.snapshots roomID with
       | some (snapshot, _) => SplitMergedUpdates snapshot
       | none => []) ++ h.db.updates roomID ∧
    (getRoomState h roomID).1.roomStates roomID = some (getRoomState h roomID).2 := by
  constructor
  · rw [getRoomState, hnc]
    simp only
    match hsnap : h.db.snapshots roomID with
    | none =>
      simp only
      by_cases hlen : 0 < ([] ++ h.db.updates roomID : List (List Nat)).length
      · rw [if_pos hlen]
      · rw [if_neg hlen, NewRoomState]
        simp only [List.nil_append, List.length_nil] at hlen ⊢
        exact (List.length_eq_zero.mp (by omega)).symm
    | some s =>
      simp only
      by_cases hblob : 0 < s.1.length
      · rw [if_pos hblob]
        by_cases hlen : 0 < (SplitMergedUpdates s.1 ++ h.db.updates roomID).length
        · rw [if_pos hlen]
        · rw [if_neg hlen, NewRoomState]
          simp only [List.length_append] at hlen
          have : SplitMergedUpdates s.1 = [] ∧ h.db.updates roomID = [] := by
            constructor <;> (apply List.length_eq_zero.mp; omega)
          simp [this.1, this.2]
      · rw [if_neg hblob]
        have hsnil : s.1 = [] := List.length_eq_zero.mp (by omega)
        rw [hsnil]
        have hsplitnil : SplitMergedUpdates [] = [] := by
          simp [SplitMergedUpdates]
        rw [hsplitnil]
        by_cases hlen : 0 < ([] ++ h.db.updates roomID : List (List Nat)).length
        · rw [if_pos hlen]
        · rw [if_neg hlen, NewRoomState]
          simp only [List.nil_append, List.length_nil] at hlen ⊢
          exact (List.length_eq_zero.mp (by omega)).symm
  · rw [getRoomState, hnc]
    simp

/-- An example store with a two-frame snapshot and one stored tail update
in room "r". -/
def exDbSnap : Db :=
  { updates := fun r => if r = "r" then [[0, 2, 30]] else []
    snapshots := fun r =>
      if r = "r" then some (mergeYjsUpdates [[0, 2, 10], [0, 2, 20]], 2) else none }

/-- Witness for `getRoomState_load` on a fresh hub over `exDbSnap`. -/
theorem getRoomState_load_witness :
    ((getRoomState (NewHub exDbSnap) "r").2).updates =
      (match (NewHub exDbSnap).db.snapshots "r" with
       | some (snapshot, _) => SplitMergedUpdates snapshot
       | none => []) ++ (NewHub exDbSnap).db.updates "r" ∧
    (getRoomState (NewHub exDbSnap) "r").1.roomStates "r" =
      some (getRoomState (NewHub exDbSnap) "r").2 :=
  getRoomState_load (NewHub exDbSnap) "r" rfl

theorem getRoomState_db (h : HubState) (roomID : String) :
    (getRoomState h roomID).1.db = h.db := by
  cases hrs : h.roomStates roomID <;> simp [getRoomState, hrs]

theorem getRoomState_rooms (h : HubState) (roomID : String) :
    (getRoomState h roomID).1.rooms = h.rooms := by
  cases hrs : h.roomStates roomID <;> simp [getRoomState, hrs]

theorem getRoomState_cached (h : HubState) (roomID : String) :
    (getRoomState h roomID).1.roomStates roomID = some (getRoomState h roomID).2 := by
  cases hrs : h.roomStates roomID <;> simp [getRoomState, hrs]

/-- C5 — For every broadcast frame handled by the hub: a frame whose
first byte is 0 (sync) is appended both to the room's in-memory update
list and to the persisted per-room log (`SaveUpdate`); a frame whose
first byte is 1 (awareness) is not stored anywhere; in all cases a send
is attempted to exactly the current members of the room other than the
sender, and the sender is never among the targets. -/
theorem handleBroadcast_spec (h : HubState) (m : Message) :
    (∀ rest, m.data = MessageSync :: rest →
      (handleBroadcast h m).1.roomStates m.roomID =
        some { (getRoomState h m.roomID).2 with
               updates := (getRoomState h m.roomID).2.updates ++ [m.data] } ∧
      (handleBroadcast h m).1.db.updates m.roomID =
        h.db.updates m.roomID ++ [m.data]) ∧
    (∀ rest, m.data = MessageAwareness :: rest →
      (handleBroadcast h m).1 = (getRoomState h m.roomID).1 ∧
      (handleBroadcast h m).1.db = h.db) ∧
    ((handleBroadcast h m).2 =
        (h.rooms m.roomID).filter (fun c => c ≠ m.sender) ∧
      m.sender ∉ (handleBroadcast h m).2) := by
  have hrooms1 : (handleBroadcast h m).1.rooms = h.rooms := by
    rw [handleBroadcast]
    match m.data with
    | [] => rfl
    | messageType :: rest =>
      by_cases ht : messageType = MessageSync
      · simp only [ht, if_pos rfl]
        exact getRoomState_rooms h m.roomID
      · simp only [if_neg ht]
        exact getRoomState_rooms h m.roomID
  have hpair : (handleBroadcast h m).2 =
      ((handleBroadcast h m).1.rooms m.roomID).filter (fun c => c ≠ m.sender) := rfl
  refine ⟨?_, ?_, ?_, ?_⟩
  · intro rest hdata
    constructor
    · rw [handleBroadcast]
      simp [hdata, MessageSync]
    · rw [handleBroadcast]
      simp only [hdata, MessageSync]
      simp only [if_pos rfl, getRoomState_db h m.roomID, saveUpdate]
      simp
  · intro rest hdata
    constructor
    · rw [handleBroadcast]
      simp only [hdata, MessageAwareness, MessageSync]
      rw [if_neg (by norm_num)]
    · rw [handleBroadcast]
      simp only [hdata, MessageAwareness, MessageSync]
      rw [if_neg (by norm_num)]
      exact getRoomState_db h m.roomID
  · rw [hpair, hrooms1]
  · rw [hpair]
    simp [List.mem_filter]

/-- Witness for `handleBroadcast_spec` at a concrete hub and sync frame. -/
theorem handleBroadcast_spec_witness :
    ((∀ rest, ([0, 2, 77] : List Nat) = MessageSync :: rest →
      (handleBroadcast (NewHub exDbSnap) ⟨"r", [0, 2, 77], 1⟩).1.roomStates "r" =
        some { (getRoomState (NewHub exDbSnap) "r").2 with
               updates := (getRoomState (NewHub exDbSnap) "r").2.updates ++
                 [[0, 2, 77]] } ∧
      (handleBroadcast (NewHub exDbSnap) ⟨"r", [0, 2, 77], 1⟩).1.db.updates "r" =
        (NewHub exDbSnap).db.updates "r" ++ [[0, 2, 77]]) ∧
    (∀ rest, ([0, 2, 77] : List Nat) = MessageAwareness :: rest →
      (handleBroadcast (NewHub exDbSnap) ⟨"r", [0, 2, 77], 1⟩).1 =
        (getRoomState (NewHub exDbSnap) "r").1 ∧
      (handleBroadcast (NewHub exDbSnap) ⟨"r", [0, 2, 77], 1⟩).1.db =
        (NewHub exDbSnap).db) ∧
    ((handleBroadcast (NewHub exDbSnap) ⟨"r", [0, 2, 77], 1⟩).2 =
        ((NewHub exDbSnap).rooms "r").filter (fun c => c ≠ 1) ∧
      (1 : Nat) ∉ (handleBroadcast (NewHub exDbSnap) ⟨"r", [0, 2, 77], 1⟩).2)) :=
  handleBroadcast_spec (NewHub exDbSnap) ⟨"r", [0, 2, 77], 1⟩

/-! ## Reachable hub states and the awareness invariant -/

/-- Hub states reachable from a fresh hub over any database by the
scheduler's event handlers (`ws.Hub.Run` dispatches exactly these). -/
inductive Reachable : HubState → Prop where
  | init (db : Db) : Reachable (NewHub db)
  | register (h : HubState) (c : Nat) (roomID : String) :
      Reachable h → Reachable (handleRegister h c roomID).1
  | unregister (h : HubState) (c : Nat) (roomID : String) :
      Reachable h → Reachable (handleUnregister h c roomID)
  | broadcast (h : HubState) (m : Message) :
      Reachable h → Reachable (handleBroadcast h m).1
  | load (h : HubState) (roomID : String) :
      Reachable h → Reachable (getRoomState h roomID).1

/-- Invariant: every cached room state has an empty awareness map. -/
def AwarenessEmpty (h : HubState) : Prop :=
  ∀ roomID st, h.roomStates roomID = some st → st.awarenessStates = []

theorem getRoomState_awareness (h : HubState) (roomID : String)
    (ha : AwarenessEmpty h) :
    AwarenessEmpty (getRoomState h roomID).1 ∧
      (getRoomState h roomID).2.awarenessStates = [] := by
  cases hrs : h.roomStates roomID with
  | some st =>
    rw [getRoomState, hrs]
    exact ⟨ha, ha roomID st hrs⟩
  | none =>
    rw [getRoomState, hrs]
    constructor
    · intro r st hst
      simp only at hst
      by_cases hr : r = roomID
      · rw [if_pos hr] at hst
        injection hst with hst
        subst hst
        split <;> rfl
      · rw [if_neg hr] at hst
        exact ha r st hst
    · simp only
      split <;> rfl

theorem handleBroadcast_awareness (h : HubState) (m : Message)
    (ha : AwarenessEmpty h) : AwarenessEmpty (handleBroadcast h m).1 := by
  obtain ⟨hp1, hp2⟩ := getRoomState_awareness h m.roomID ha
  intro r st hst
  simp only [handleBroadcast] at hst
  split at hst
  · exact ha r st hst
  · split at hst
    · simp only at hst
      by_cases hr : r = m.roomID
      · rw [if_pos hr] at hst
        injection hst with hst
        subst hst
        exact hp2
      · rw [if_neg hr] at hst
        exact hp1 r st hst
    · exact hp1 r st hst

theorem handleRegister_awareness (h : HubState) (c : Nat) (roomID : String)
    (ha : AwarenessEmpty h) :
    AwarenessEmpty (handleRegister h c roomID).1 ∧
      ∃ st, (handleRegister h c roomID).1.roomStates roomID = some st ∧
        (handleRegister h c roomID).2 = st.updates := by
  obtain ⟨h1, hstates, heq⟩ :
      ∃ h1 : HubState, h1.roomStates = h.roomStates ∧
        handleRegister h c roomID =
          ((getRoomState h1 roomID).1,
           (getRoomState h1 roomID).2.updates ++
             GetAllAwareness (getRoomState h1 roomID).2) :=
    ⟨{ h with rooms := registerMembers h c roomID }, rfl, rfl⟩
  have ha1 : AwarenessEmpty h1 := by
    intro r st hst
    exact ha r st (by rw [← hstates]; exact hst)
  obtain ⟨hp1, hp2⟩ := getRoomState_awareness h1 roomID ha1
  rw [heq]
  refine ⟨hp1, (getRoomState h1 roomID).2, getRoomState_cached h1 roomID, ?_⟩
  simp [GetAllAwareness, hp2]

/-- C10 — In every reachable hub state, every room state's awareness map
is empty: no hub operation ever records an awareness frame, so
`GetAllAwareness` always returns an empty list and a newly registered
client receives zero awareness frames during catch-up replay (its replay
is exactly the room's retained update list). -/
theorem awareness_always_empty (h : HubState) (hr : Reachable h) :
    (∀ roomID st, h.roomStates roomID = some st →
      st.awarenessStates = [] ∧ GetAllAwareness st = []) ∧
    (∀ c roomID, ∃ st,
      (handleRegister h c roomID).1.roomStates roomID = some st ∧
      (handleRegister h c roomID).2 = st.updates) := by
  have hinv : AwarenessEmpty h := by
    induction hr with
    | init db => intro r st hst; exact absurd hst (by simp [NewHub])
    | register h c roomID _ ih => exact (handleRegister_awareness h c roomID ih).1
    | unregister h c roomID _ ih => exact fun r st hst => ih r st hst
    | broadcast h m _ ih => exact handleBroadcast_awareness h m ih
    | load h roomID _ ih => exact (getRoomState_awareness h roomID ih).1
  constructor
  · intro roomID st hst
    have := hinv roomID st hst
    exact ⟨this, by simp [GetAllAwareness, this]⟩
  · intro c roomID
    exact (handleRegister_awareness h c roomID hinv).2

/-- Witness for `awareness_always_empty` at a concrete reachable state:
a fresh hub over `exDbSnap` after one broadcast. -/
theorem awareness_always_empty_witness :
    (∀ roomID st,
      (handleBroadcast (NewHub exDbSnap) ⟨"r", [0, 2, 9], 4⟩).1.roomStates roomID =
        some st → st.awarenessStates = [] ∧ GetAllAwareness st = []) ∧
    (∀ c roomID, ∃ st,
      (handleRegister (handleBroadcast (NewHub exDbSnap) ⟨"r", [0, 2, 9], 4⟩).1
          c roomID).1.roomStates roomID = some st ∧
      (handleRegister (handleBroadcast (NewHub exDbSnap) ⟨"r", [0, 2, 9], 4⟩).1
          c roomID).2 = st.updates) :=
  awareness_always_empty _
    (Reachable.broadcast (NewHub exDbSnap) ⟨"r", [0, 2, 9], 4⟩
      (Reachable.init exDbSnap))

/-! ## Version service (api.CreateVersionHandler over db version rows) -/

/-- Go `db.Version` row (timestamps not modelled; the list order of a
`VersionStore` is creation order, which is what `created_at DESC`
pagination reverses). -/
structure Version where
  id : Nat
  roomID : String
  name : String
  description : String
  content : String
  contentHash : String
  createdBy : String
  isAuto : Bool
deriving DecidableEq, Repr

/-- The `document_versions` table: rows in insertion order plus the next
auto-increment id. -/
structure VersionStore where
  versions : List Version
  nextId : Nat

/-- Go `Database.GetLatestVersion`: the room's most recently created
version (`ORDER BY created_at DESC LIMIT 1`), or none. -/
def GetLatestVersion (st : VersionStore) (roomID : String) : Option Version :=
  ((st.versions.filter (fun v => v.roomID = roomID)).getLast?)

/-- Go `Database.GetVersionCount`: number of versions stored for a room. -/
def GetVersionCount (st : VersionStore) (roomID : String) : Nat :=
  (st.versions.filter (fun v => v.roomID = roomID)).length

/-- Go `Database.CreateVersion`: insert a new row with the next id and
return it. -/
def CreateVersion (st : VersionStore) (roomID name description content
    contentHash createdBy : String) (isAuto : Bool) : Version × VersionStore :=
  let v : Version := ⟨st.nextId, roomID, name, description, content,
    contentHash, createdBy, isAuto⟩
  (v, { versions := st.versions ++ [v], nextId := st.nextId + 1 })

/-- Go `Database.DeleteOldAutoVersions`: delete the room's auto versions
except the `keepCount` most recently created. -/
def DeleteOldAutoVersions (st : VersionStore) (roomID : String)
    (keepCount : Nat) : VersionStore :=
  let autos := st.versions.filter (fun v => v.roomID == roomID && v.isAuto)
  let keepIds := (autos.reverse.take keepCount).map (fun v => v.id)
  let kept := st.versions.filter
    (fun v => !(v.roomID == roomID && v.isAuto) || keepIds.contains v.id)
  { st with versions := kept }

/-- Outcome of `CreateVersionHandler`: 400, 200 with the deduplicated
existing row, or 201 with the newly inserted row. -/
inductive VersionResult where
  | badRequest (message : String)
  | okExisting (v : Version)
  | createdNew (v : Version)
deriving DecidableEq, Repr

/-- Go `api.CreateVersionHandler` (body already decoded; `hash` abstracts
`hashContent` = hex of the first 8 bytes of SHA-256, `now` the formatted
current time used for generated names): validate `room_id` and `content`;
generate a name when empty; if the room's latest version has the same
content hash and the request is an auto-save, return that row unchanged
with HTTP 200; otherwise insert, trim old auto versions to the newest 20
when auto, and return the new row with HTTP 201. -/
def CreateVersionHandler (hash : String → String) (now : String)
    (st : VersionStore) (roomID name description content createdBy : String)
    (isAuto : Bool) : VersionResult × VersionStore :=
  if roomID = "" then (.badRequest "room_id is required", st)
  else if content = "" then (.badRequest "content is required", st)
  else
    let name := if name = "" then
      (if isAuto then "Auto-save " ++ now else "Version " ++ now) else name
    let contentHash := hash content
    let dedup := match GetLatestVersion st roomID with
      | some latest =>
        if latest.contentHash = contentHash then
          (if isAuto then some latest else none)
        else none
      | none => none
    match dedup with
    | some latest => (.okExisting latest, st)
    | none =>
      let p := CreateVersion st roomID name description content contentHash
        createdBy isAuto
      let st2 := if isAuto then DeleteOldAutoVersions p.2 roomID 20 else p.2
      (.createdNew p.1, st2)

/-- C4 — Creating a version with isAuto = true and content whose hash
equals the latest stored version's content hash is idempotent: the handler
returns that existing latest row unchanged with HTTP 200, the store is
unchanged (no row inserted), and the room's version count does not
increase. -/
theorem createVersion_auto_dedup (hash : String → String) (now : String)
    (st : VersionStore) (roomID name description content createdBy : String)
    (hroom : roomID ≠ "") (hcontent : content ≠ "") (latest : Version)
    (hlatest : GetLatestVersion st roomID = some latest)
    (hhash : latest.contentHash = hash content) :
    CreateVersionHandler hash now st roomID name description content
        createdBy true = (.okExisting latest, st) ∧
    GetVersionCount
        (CreateVersionHandler hash now st roomID name description content
          createdBy true).2 roomID = GetVersionCount st roomID := by
  have hmain : CreateVersionHandler hash now st roomID name description content
      createdBy true = (.okExisting latest, st) := by
    rw [CreateVersionHandler, if_neg hroom, if_neg hcontent]
    simp only [hlatest]
    rw [if_pos hhash]
    simp
  exact ⟨hmain, by rw [hmain]⟩

/-- An example version store with one auto version in room "r". -/
def exVersionStore : VersionStore :=
  { versions := [⟨1, "r", "v1", "", "hello", "h-hello", "", true⟩], nextId := 2 }

/-- Witness for `createVersion_auto_dedup` at a concrete store and a
constant hash function. -/
theorem createVersion_auto_dedup_witness :
    CreateVersionHandler (fun _ => "h-hello") "t" exVersionStore "r" "" ""
        "hello" "" true =
      (.okExisting ⟨1, "r", "v1", "", "hello", "h-hello", "", true⟩,
        exVersionStore) ∧
    GetVersionCount
        (CreateVersionHandler (fun _ => "h-hello") "t" exVersionStore "r" "" ""
          "hello" "" true).2 "r" = GetVersionCount exVersionStore "r" :=
  createVersion_auto_dedup (fun _ => "h-hello") "t" exVersionStore "r" "" ""
    "hello" "" (by decide) (by decide)
    ⟨1, "r", "v1", "", "hello", "h-hello", "", true⟩ (by decide) (by decide)

end Lattice
